import Mathlib

/-!
# Verification of `scripts/resolve-musl-runtime.py`

A shallow embedding of the script's operations on Python strings, modelled
as `List Char` (one element per Unicode scalar value, matching Python's
`str`).  The embedding covers:

* `normalize_text` (tag removal, HTML entity decoding, whitespace collapsing,
  strip, lower-casing),
* the anchor-extracting regular expression
  `<a\s+[^>]*href="([^"]+)"[^>]*>(.*?)</a>` with `IGNORECASE | DOTALL`
  under Python (leftmost, backtracking) match semantics,
* `html.unescape` (CPython 3.11 algorithm; the named-entity table is
  restricted to a small subset of `html.entities.html5` sufficient for the
  inputs appearing in the development — see `html5Table`),
* `urllib.parse.urljoin` and its helpers (CPython 3.11); a raised
  `ValueError` is modelled as `none`,
* `resolve_musl_runtime_url` and the CLI driver `main`.

Modelling conventions, noted where they matter:
* `str.lower` and case-insensitive matching are modelled on the ASCII
  range only (`pyLowerChar`); every input in the claims is ASCII.
* Scanning loops (regex substitution / findall) take an explicit fuel
  argument, always called with fuel equal to the length of the scanned
  string, which strictly exceeds the number of scanning steps; this keeps
  every definition structurally recursive and executable by `decide`.
-/

/-- Python's whitespace set: the model of the `\s` character class of `re`
on `str` and of the default `str.strip()` character set (the two sets
coincide in CPython 3.11; this is their exact enumeration). -/
def pyIsSpace (c : Char) : Bool :=
  (9 ≤ c.toNat && c.toNat ≤ 13) || (0x1c ≤ c.toNat && c.toNat ≤ 0x20) ||
  c.toNat = 0x85 || c.toNat = 0xa0 || c.toNat = 0x1680 ||
  (0x2000 ≤ c.toNat && c.toNat ≤ 0x200a) || c.toNat = 0x2028 || c.toNat = 0x2029 ||
  c.toNat = 0x202f || c.toNat = 0x205f || c.toNat = 0x3000

/-- Model of `str.lower` on a single character (ASCII range: `A`–`Z` map to
`a`–`z`, everything else is fixed). -/
def pyLowerChar (c : Char) : Char :=
  if h : 65 ≤ c.toNat ∧ c.toNat ≤ 90 then
    Char.ofNatAux (c.toNat + 32) (Or.inl (by omega))
  else c

/-- Model of `str.lower`. -/
def pyLower (s : List Char) : List Char :=
  s.map pyLowerChar

/-- Case-insensitive character comparison, used for the `re.IGNORECASE`
literals of the anchor regex. -/
def ciEq (a b : Char) : Bool :=
  pyLowerChar a = pyLowerChar b

/-- Model of `str.strip()` (no argument): drop leading and trailing
whitespace. -/
def pyStrip (s : List Char) : List Char :=
  ((s.dropWhile pyIsSpace).reverse.dropWhile pyIsSpace).reverse

/-- Model of `re.sub(r"\s+", " ", s)`: every maximal whitespace run becomes
one space.  A whitespace character followed by another whitespace character
is dropped; the last character of a run is emitted as `' '`. -/
def collapseWs : List Char → List Char
  | [] => []
  | [c] => if pyIsSpace c then [' '] else [c]
  | c₁ :: c₂ :: r =>
    if pyIsSpace c₁ && pyIsSpace c₂ then collapseWs (c₂ :: r)
    else (if pyIsSpace c₁ then ' ' else c₁) :: collapseWs (c₂ :: r)

/-- `True` iff `pat` is a prefix of `s` (Python `s.startswith(pat)`). -/
def startsWithL : List Char → List Char → Bool
  | [], _ => true
  | _ :: _, [] => false
  | p :: ps, c :: cs => p = c && startsWithL ps cs

/-- Model of Python's substring test `pat in s`. -/
def subIn (pat : List Char) : List Char → Bool
  | [] => pat.isEmpty
  | c :: cs => startsWithL pat (c :: cs) || subIn pat cs

/-! ## `html.unescape` (CPython 3.11 `html/__init__.py`) -/

/-- Restriction of the `html.entities.html5` named-reference table to the
entries exercised in this development.  CPython's table has about 2200
entries; all inputs below only use the ones listed here.  Keys may or may
not include the trailing semicolon, exactly as in `html5`. -/
def html5Table : List (List Char × List Char) :=
  [ ("amp;".data, "&".data), ("amp".data, "&".data),
    ("lt;".data, "<".data), ("lt".data, "<".data),
    ("gt;".data, ">".data), ("gt".data, ">".data),
    ("quot;".data, "\"".data), ("quot".data, "\"".data),
    ("apos;".data, "\x27".data),
    ("nbsp;".data, " ".data), ("nbsp".data, " ".data),
    ("copy;".data, "©".data), ("copy".data, "©".data) ]

def assocLookup (k : List Char) : List (List Char × List Char) → Option (List Char)
  | [] => none
  | (a, v) :: r => if a = k then some v else assocLookup k r

/-- `html._invalid_charrefs`: numeric references remapped per the HTML 5
numeric-character-reference-end state (windows-1252 remapping of `0x80`
through `0x9f`, plus `0x00` and `0x0d`). -/
def invalidCharrefs (n : Nat) : Option Char :=
  match n with
  | 0x00 => some '�' | 0x0d => some '\x0d'
  | 0x80 => some '€' | 0x81 => some '\x81' | 0x82 => some '‚'
  | 0x83 => some 'ƒ' | 0x84 => some '„' | 0x85 => some '…'
  | 0x86 => some '†' | 0x87 => some '‡' | 0x88 => some 'ˆ'
  | 0x89 => some '‰' | 0x8a => some 'Š' | 0x8b => some '‹'
  | 0x8c => some 'Œ' | 0x8d => some '\x8d' | 0x8e => some 'Ž'
  | 0x8f => some '\x8f' | 0x90 => some '\x90' | 0x91 => some '‘'
  | 0x92 => some '’' | 0x93 => some '“' | 0x94 => some '”'
  | 0x95 => some '•' | 0x96 => some '–' | 0x97 => some '—'
  | 0x98 => some '˜' | 0x99 => some '™' | 0x9a => some 'š'
  | 0x9b => some '›' | 0x9c => some 'œ' | 0x9d => some '\x9d'
  | 0x9e => some 'ž' | 0x9f => some 'Ÿ'
  | _ => none

/-- `html._invalid_codepoints` as a predicate (the listed set is exactly the
control characters, the `0xFDD0`–`0xFDEF` noncharacters and the trailing
`...FFFE`/`...FFFF` noncharacters of each plane). -/
def isInvalidCodepoint (n : Nat) : Bool :=
  (1 ≤ n && n ≤ 8) || n = 0xb || (0xe ≤ n && n ≤ 0x1f) ||
  (0x7f ≤ n && n ≤ 0x9f) || (0xfdd0 ≤ n && n ≤ 0xfdef) ||
  (n ≤ 0x10ffff && (n % 0x10000 = 0xfffe || n % 0x10000 = 0xffff))

def isDigitCh (c : Char) : Bool := 48 ≤ c.toNat && c.toNat ≤ 57

def isHexCh (c : Char) : Bool :=
  isDigitCh c || (97 ≤ c.toNat && c.toNat ≤ 102) || (65 ≤ c.toNat && c.toNat ≤ 70)

def decVal (ds : List Char) : Nat := ds.foldl (fun a c => 10 * a + (c.toNat - 48)) 0

def hexDigit (c : Char) : Nat :=
  if isDigitCh c then c.toNat - 48
  else if 97 ≤ c.toNat then c.toNat - 87
  else c.toNat - 55

def hexVal (ds : List Char) : Nat := ds.foldl (fun a c => 16 * a + hexDigit c) 0

/-- `html._replace_charref`, numeric case: the replacement text for a
numeric character reference with value `num`. -/
def numericRep (num : Nat) : List Char :=
  match invalidCharrefs num with
  | some c => [c]
  | none =>
    if (0xD800 ≤ num && num ≤ 0xDFFF) || num > 0x10FFFF then ['�']
    else if isInvalidCodepoint num then []
    else [Char.ofNat num]

/-- The character class excluded from named references:
`[^\t\n\f <&#;]` in `html._charref`. -/
def nameExcluded (c : Char) : Bool :=
  c = '\t' || c = '\n' || c = '\x0c' || c = ' ' || c = '<' || c = '&' || c = '#' || c = ';'

/-- The longest-matching-name loop of `html._replace_charref`
(`for x in range(len(s)-1, 1, -1)`); the argument is the first `x` to try. -/
def namedFallback (s : List Char) : Nat → Option (List Char)
  | 0 => none
  | 1 => none
  | Nat.succ x =>
    match assocLookup (s.take (x + 1)) html5Table with
    | some v => some (v ++ s.drop (x + 1))
    | none => namedFallback s x

/-- `html._replace_charref`, named case, applied to the text after `&`:
returns the replacement for the whole match and the remainder of the
input, or `none` when the regex alternative `[^\t\n\f <&#;]{1,32};?`
does not match. -/
def namedCharref (s : List Char) : Option (List Char × List Char) :=
  let name := (s.takeWhile (fun c => !nameExcluded c)).take 32
  if name = [] then none
  else
    let r1 := s.drop name.length
    let grpr2 : List Char × List Char :=
      if r1.head? = some ';' then (name ++ [';'], r1.tail) else (name, r1)
    match assocLookup grpr2.1 html5Table with
    | some v => some (v, grpr2.2)
    | none =>
      match namedFallback grpr2.1 (grpr2.1.length - 1) with
      | some v => some (v, grpr2.2)
      | none => some ('&' :: grpr2.1, grpr2.2)

/-- One match of `html._charref` at the position just after a `&`:
the replacement text for the whole match (including the `&`) and the
rest of the input, or `none` when the regex does not match here. -/
def matchCharref (s : List Char) : Option (List Char × List Char) :=
  match s with
  | '#' :: rest =>
    let ds := rest.takeWhile isDigitCh
    if ds ≠ [] then
      let r1 := rest.drop ds.length
      some (numericRep (decVal ds), if r1.head? = some ';' then r1.tail else r1)
    else
      match rest with
      | x :: rest2 =>
        if x = 'x' || x = 'X' then
          let hs := rest2.takeWhile isHexCh
          if hs ≠ [] then
            let r1 := rest2.drop hs.length
            some (numericRep (hexVal hs), if r1.head? = some ';' then r1.tail else r1)
          else none
        else none
      | [] => none
  | _ => namedCharref s

/-- The scan of `html._charref.sub(_replace_charref, s)`.  Fuel decreases by
one per examined character while the remaining input shrinks by at least as
much, so fuel `s.length` computes the full substitution. -/
def unescapeF : Nat → List Char → List Char
  | 0, s => s
  | _ + 1, [] => []
  | n + 1, c :: rest =>
    if c = '&' then
      match matchCharref rest with
      | some (rep, r) => rep ++ unescapeF n r
      | none => c :: unescapeF n rest
    else c :: unescapeF n rest

/-- Model of `html.unescape` (the `'&' not in s` fast path of CPython is an
extensionally trivial optimization of this scan). -/
def pyUnescape (s : List Char) : List Char := unescapeF s.length s

/-! ## `normalize_text` (the script, lines 17–21) -/

/-- Match `[^>]+>` right after a `<` (one `re.sub(r"<[^>]+>", " ", ...)`
match); returns the text after the closing `>`, or `none` when the
tag regex does not match at this `<`. -/
def splitTag (rest : List Char) : Option (List Char) :=
  let run := rest.takeWhile (fun c => c ≠ '>')
  if run = [] then none
  else
    match rest.drop run.length with
    | _ :: r => some r
    | [] => none

/-- The scan of `re.sub(r"<[^>]+>", " ", s)` with explicit fuel. -/
def subTagsF : Nat → List Char → List Char
  | 0, s => s
  | _ + 1, [] => []
  | n + 1, c :: rest =>
    if c = '<' then
      match splitTag rest with
      | some r => ' ' :: subTagsF n r
      | none => c :: subTagsF n rest
    else c :: subTagsF n rest

/-- `re.sub(r"<[^>]+>", " ", s)`. -/
def subTags (s : List Char) : List Char := subTagsF s.length s

/-- `normalize_text` from the script: remove tag-like substrings, decode
HTML character references, collapse whitespace, strip, lower-case. -/
def normalize_text (s : List Char) : List Char :=
  pyLower (pyStrip (collapseWs (pyUnescape (subTags s))))

/-! ## Anchor extraction (the script, lines 42–46)

The regex `<a\s+[^>]*href="([^"]+)"[^>]*>(.*?)</a>` with
`re.IGNORECASE | re.DOTALL`, scanned by `re.findall`.  Python's backtracking
semantics specialize as follows at a match start:
after the literal `<a` the first character must be whitespace (`\s+`), and
the combined `\s+[^>]*` can stop at any offset `≥ 1` inside the run of
non-`>` characters; the greedy `[^>]*` prefers the longest stop, so the
candidate resumption points for `href="` are tried from the farthest one
backwards.  The greedy `([^"]+)` takes the maximal nonempty run of
non-quote characters and must be followed by `"`; the greedy `[^>]*>`
admits exactly the first following `>`; the lazy `(.*?)</a>` stops at the
first `</a>`. -/

/-- Consume the literal `pat` case-insensitively from the front of `s`. -/
def dropLitCI : List Char → List Char → Option (List Char)
  | [], s => some s
  | _ :: _, [] => none
  | p :: ps, c :: cs => if ciEq p c then dropLitCI ps cs else none

/-- Suffixes of `t` at offsets `1, 2, …`, cut off at the first `>`: the
candidate resumption points after `\s+[^>]*`, shortest offset first. -/
def tailsNoGt : List Char → List (List Char)
  | [] => []
  | c :: cs => if c = '>' then [] else cs :: tailsNoGt cs

/-- Split at the first `</a>` (case-insensitive): `(.*?)</a>` under
`DOTALL` captures everything before the earliest closing tag. -/
def splitAtCloseA : List Char → Option (List Char × List Char)
  | [] => none
  | c :: cs =>
    match dropLitCI "</a>".data (c :: cs) with
    | some rest => some ([], rest)
    | none =>
      match splitAtCloseA cs with
      | some (pre, rest) => some (c :: pre, rest)
      | none => none

/-- Skip to just after the first `>` (the only stop `[^>]*>` admits). -/
def afterGt : List Char → Option (List Char)
  | [] => none
  | c :: cs => if c = '>' then some cs else afterGt cs

/-- Attempt `href="([^"]+)"[^>]*>(.*?)</a>` at one candidate resumption
point; on success returns (href capture, inner capture, rest of input). -/
def tryHref (v : List Char) : Option (List Char × List Char × List Char) :=
  match dropLitCI "href=\"".data v with
  | none => none
  | some w =>
    let hrf := w.takeWhile (fun c => c ≠ '\"')
    if hrf = [] then none
    else
      match w.drop hrf.length with
      | [] => none
      | _ :: rest1 =>
        match afterGt rest1 with
        | none => none
        | some rest2 =>
          match splitAtCloseA rest2 with
          | none => none
          | some (inner, after) => some (hrf, inner, after)

/-- First success of `f` over a list of candidates (the backtracking
order). -/
def firstSome (f : List Char → Option (List Char × List Char × List Char)) :
    List (List Char) → Option (List Char × List Char × List Char)
  | [] => none
  | v :: vs =>
    match f v with
    | some r => some r
    | none => firstSome f vs

/-- One attempt of the whole anchor regex anchored at the start of `s`. -/
def matchAnchorAt (s : List Char) : Option (List Char × List Char × List Char) :=
  match dropLitCI "<a".data s with
  | none => none
  | some t =>
    match t with
    | [] => none
    | c :: _ =>
      if pyIsSpace c then firstSome tryHref (tailsNoGt t).reverse else none

/-- The `re.findall` scan: try each start position left to right; after a
match, resume after its end.  Fuel decreases by one per step while the
input shrinks by at least one, so fuel `s.length` computes the full scan. -/
def findAnchorsF : Nat → List Char → List (List Char × List Char)
  | 0, _ => []
  | _ + 1, [] => []
  | n + 1, c :: rest =>
    match matchAnchorAt (c :: rest) with
    | some (h, inner, after) => (h, inner) :: findAnchorsF n after
    | none => findAnchorsF n rest

/-- `re.findall(r"<a\s+[^>]*href=\"([^\"]+)\"[^>]*>(.*?)</a>", html,
flags=re.IGNORECASE | re.DOTALL)`. -/
def findAnchors (s : List Char) : List (List Char × List Char) :=
  findAnchorsF s.length s

/-! ## `urllib.parse` (CPython 3.11): `urlsplit`, `urlparse`, `urlunsplit`,
`urlunparse`, `urljoin`.  A raised `ValueError` is modelled as `none`.
Two deliberate simplifications, both irrelevant to every property below:
`_check_bracketed_host` (IPv6 / IPvFuture validation) is modelled as always
rejecting, so a *well-formed* bracketed host also maps to `none`; and the
NFKC re-check of `_checknetloc` for non-ASCII netlocs is modelled as always
passing.  No input in this development contains a bracketed or non-ASCII
netloc. -/

def usesRelative : List (List Char) :=
  ["", "ftp", "http", "gopher", "nntp", "imap", "wais", "file", "https",
   "shttp", "mms", "prospero", "rtsp", "rtsps", "rtspu", "sftp", "svn",
   "svn+ssh", "ws", "wss"].map String.data

def usesNetloc : List (List Char) :=
  ["", "ftp", "http", "gopher", "nntp", "telnet", "imap", "wais", "file",
   "mms", "https", "shttp", "snews", "prospero", "rtsp", "rtsps", "rtspu",
   "rsync", "svn", "svn+ssh", "sftp", "nfs", "git", "git+ssh", "ws",
   "wss"].map String.data

def usesParams : List (List Char) :=
  ["", "ftp", "hdl", "prospero", "http", "imap", "https", "shttp", "rtsp",
   "rtsps", "rtspu", "sip", "sips", "mms", "sftp", "tel"].map String.data

/-- `_WHATWG_C0_CONTROL_OR_SPACE`. -/
def c0OrSpace (c : Char) : Bool := c.toNat ≤ 0x20

/-- `_UNSAFE_URL_BYTES_TO_REMOVE`. -/
def isUnsafeUrlByte (c : Char) : Bool := c = '\t' || c = '\x0d' || c = '\n'

/-- `url.lstrip(_WHATWG_C0_CONTROL_OR_SPACE)` followed by removal of every
unsafe byte. -/
def cleanUrl (u : List Char) : List Char :=
  (u.dropWhile c0OrSpace).filter (fun c => !isUnsafeUrlByte c)

/-- `scheme.strip(_WHATWG_C0_CONTROL_OR_SPACE)` followed by removal of
every unsafe byte. -/
def cleanScheme (d : List Char) : List Char :=
  (((d.dropWhile c0OrSpace).reverse.dropWhile c0OrSpace).reverse).filter
    (fun c => !isUnsafeUrlByte c)

/-- `scheme_chars`. -/
def isSchemeChar (c : Char) : Bool :=
  (97 ≤ c.toNat && c.toNat ≤ 122) || (65 ≤ c.toNat && c.toNat ≤ 90) ||
  isDigitCh c || c = '+' || c = '-' || c = '.'

def isAsciiAlpha (c : Char) : Bool :=
  (65 ≤ c.toNat && c.toNat ≤ 90) || (97 ≤ c.toNat && c.toNat ≤ 122)

/-- Split at the first occurrence of `sep` (Python `s.split(sep, 1)` when it
returns two parts; `none` when `sep` does not occur). -/
def splitOnceCh (sep : Char) : List Char → Option (List Char × List Char)
  | [] => none
  | c :: cs =>
    if c = sep then some ([], cs)
    else
      match splitOnceCh sep cs with
      | some (a, b) => some (c :: a, b)
      | none => none

/-- The scheme detection of `urlsplit`: `i = url.find(':')`, `i > 0`, first
character an ASCII letter, all characters before the colon in
`scheme_chars`; on success returns the lower-cased scheme and `url[i+1:]`. -/
def schemeOf (u : List Char) : Option (List Char × List Char) :=
  match splitOnceCh ':' u with
  | some (pre, post) =>
    match pre with
    | [] => none
    | c :: _ =>
      if isAsciiAlpha c && pre.all isSchemeChar then some (pyLower pre, post)
      else none
  | none => none

/-- `_splitnetloc(url, 2)` applied to the text after `//`: the netloc runs to
the first `/`, `?` or `#`. -/
def netlocSplit (u : List Char) : List Char × List Char :=
  (u.takeWhile (fun c => c ≠ '/' && c ≠ '?' && c ≠ '#'),
   u.dropWhile (fun c => c ≠ '/' && c ≠ '?' && c ≠ '#'))

structure SplitR where
  scheme : List Char
  netloc : List Char
  path : List Char
  query : List Char
  frag : List Char
deriving DecidableEq

/-- Fragment and query splitting of `urlsplit` (`allow_fragments` is `True`
everywhere in the script): `#` is split off first, then `?` within the part
before the fragment. -/
def splitRest (scheme netloc u : List Char) : SplitR :=
  let fr : List Char × List Char :=
    match splitOnceCh '#' u with
    | some (a, b) => (a, b)
    | none => (u, [])
  let qr : List Char × List Char :=
    match splitOnceCh '?' fr.1 with
    | some (a, b) => (a, b)
    | none => (fr.1, [])
  ⟨scheme, netloc, qr.1, qr.2, fr.2⟩

/-- `urlsplit(url, scheme)` (with `allow_fragments=True`). -/
def pyUrlsplit (url0 dflt : List Char) : Option SplitR :=
  let url := cleanUrl url0
  let d := cleanScheme dflt
  let su : List Char × List Char :=
    match schemeOf url with
    | some sr => sr
    | none => (d, url)
  if su.2.take 2 = "//".data then
    let p := netlocSplit (su.2.drop 2)
    if (p.1.contains '[' && !p.1.contains ']') ||
       (p.1.contains ']' && !p.1.contains '[') then none
    else if p.1.contains '[' && p.1.contains ']' then none
    else some (splitRest su.1 p.1 p.2)
  else some (splitRest su.1 [] su.2)

/-- `_splitparams`: split `;params` off the last path segment (only called
when `;` occurs in the path). -/
def splitParams (p : List Char) : List Char × List Char :=
  if p.contains '/' then
    match splitOnceCh '/' p.reverse with
    | some (revAfter, revBefore) =>
      match splitOnceCh ';' revAfter.reverse with
      | some (x, y) => (revBefore.reverse ++ '/' :: x, y)
      | none => (p, [])
    | none => (p, [])
  else
    match splitOnceCh ';' p with
    | some (x, y) => (x, y)
    | none => (p, [])

/-- `urlparse(url, scheme)`: `urlsplit` plus params splitting. -/
def pyUrlparse (url dflt : List Char) : Option (SplitR × List Char) :=
  (pyUrlsplit url dflt).map (fun s =>
    if s.scheme ∈ usesParams ∧ s.path.contains ';' then
      let pq := splitParams s.path
      ({ s with path := pq.1 }, pq.2)
    else (s, []))

/-- `urlunsplit` (CPython 3.11 condition:
`netloc or (scheme and scheme in uses_netloc and url[:2] != '//')`). -/
def pyUrlunsplit (s : SplitR) : List Char :=
  let url := s.path
  let url :=
    if s.netloc ≠ [] ∨ (s.scheme ≠ [] ∧ s.scheme ∈ usesNetloc ∧ url.take 2 ≠ "//".data) then
      '/' :: '/' ::
        (s.netloc ++ (if url ≠ [] ∧ url.head? ≠ some '/' then '/' :: url else url))
    else url
  let url := if s.scheme ≠ [] then s.scheme ++ ':' :: url else url
  let url := if s.query ≠ [] then url ++ '?' :: s.query else url
  if s.frag ≠ [] then url ++ '#' :: s.frag else url

/-- `urlunparse`. -/
def pyUrlunparse (scheme netloc path params query frag : List Char) : List Char :=
  pyUrlunsplit
    ⟨scheme, netloc, (if params ≠ [] then path ++ ';' :: params else path), query, frag⟩

/-- Python `s.split(sep)` for a one-character separator (total, keeps empty
parts, returns `[""]` on the empty string). -/
def pySplitCh (sep : Char) : List Char → List (List Char)
  | [] => [[]]
  | c :: r =>
    if c = sep then [] :: pySplitCh sep r
    else
      match pySplitCh sep r with
      | h :: t => (c :: h) :: t
      | [] => [[c]]

/-- `segments[1:-1] = filter(None, segments[1:-1])`: drop empty segments,
keeping the first and last elements. -/
def filterMiddle : List (List Char) → List (List Char)
  | [] => []
  | [x] => [x]
  | x :: rest => x :: ((rest.dropLast.filter (fun s => !s.isEmpty)) ++ [rest.getLastD []])

/-- The dot-segment resolution loop of `urljoin` (a `..` pops, an
out-of-range pop is ignored, a `.` is skipped). -/
def resolveSegs : List (List Char) → List (List Char) → List (List Char)
  | acc, [] => acc
  | acc, s :: rest =>
    if s = "..".data then resolveSegs acc.dropLast rest
    else if s = ".".data then resolveSegs acc rest
    else resolveSegs (acc ++ [s]) rest

/-- `urljoin(base, url)` (with `allow_fragments=True`); `none` models a
raised `ValueError`. -/
def pyUrljoin (base url : List Char) : Option (List Char) :=
  if base = [] then some url
  else if url = [] then some base
  else
    match pyUrlparse base [] with
    | none => none
    | some (b, bparams) =>
      match pyUrlparse url b.scheme with
      | none => none
      | some (r, params) =>
        if r.scheme ≠ b.scheme ∨ r.scheme ∉ usesRelative then some url
        else if r.scheme ∈ usesNetloc ∧ r.netloc ≠ [] then
          some (pyUrlunparse r.scheme r.netloc r.path params r.query r.frag)
        else
          let netloc := if r.scheme ∈ usesNetloc then b.netloc else r.netloc
          if r.path = [] ∧ params = [] then
            some (pyUrlunparse r.scheme netloc b.path bparams
              (if r.query = [] then b.query else r.query) r.frag)
          else
            let baseParts0 := pySplitCh '/' b.path
            let baseParts :=
              if baseParts0.getLastD [] ≠ [] then baseParts0.dropLast else baseParts0
            let segments :=
              if r.path.take 1 = "/".data then pySplitCh '/' r.path
              else filterMiddle (baseParts ++ pySplitCh '/' r.path)
            let resolved := resolveSegs [] segments
            let resolved :=
              if segments.getLastD [] = ".".data ∨ segments.getLastD [] = "..".data then
                resolved ++ [[]]
              else resolved
            let joined := List.intercalate "/".data resolved
            some (pyUrlunparse r.scheme netloc
              (if joined = [] then "/".data else joined) params r.query r.frag)

/-! ## The Resolver (`resolve_musl_runtime_url`, script lines 24–57) -/

/-- Outcome of `resolve_musl_runtime_url`:
* `found u` — the function returns the resolved URL `u`;
* `notFound` — the function executes `sys.exit(1)` (no anchor qualified);
* `err` — a `ValueError` escapes from `urljoin`. -/
inductive ResolveResult where
  | found (u : List Char)
  | notFound
  | err
deriving DecidableEq

/-- The matching test of the loop body (script lines 50–52): build the
haystack from the entity-decoded href, a space and the normalized inner
content, lower-case it, and require both `"runtime"` and the (already
lower-cased) needle as substrings. -/
def anchorQualifies (needle : List Char) (a : List Char × List Char) : Bool :=
  let haystack := pyLower (pyUnescape a.1 ++ ' ' :: normalize_text a.2)
  subIn "runtime".data haystack && subIn needle haystack

/-- Returning from the loop body on a qualifying anchor (script lines
53–54): resolve the decoded href against the base URL. -/
def resolveAnchor (home : List Char) (a : List Char × List Char) : ResolveResult :=
  match pyUrljoin home (pyUnescape a.1) with
  | some u => .found u
  | none => .err

/-- The `for href, inner in anchors` loop (script lines 49–57). -/
def resolveLoop (home needle : List Char) : List (List Char × List Char) → ResolveResult
  | [] => .notFound
  | a :: rest =>
    if anchorQualifies needle a then resolveAnchor home a
    else resolveLoop home needle rest

/-- `resolve_musl_runtime_url(html, home_url, needle_arch)`. -/
def resolve_musl_runtime_url (html home_url needle_arch : List Char) : ResolveResult :=
  resolveLoop home_url (pyLower needle_arch) (findAnchors html)

/-! ## The driver (`main`, script lines 60–112)

The driver's observable interface is modelled as a function from the
configuration (parsed flags, environment variables, stdin availability) to
an outcome.  `argparse`'s `parser.error` prints a usage message to stderr
and exits with status `2`. -/

/-- The inputs `main` consults: each `arg*` field is the parsed optional
flag value, each `env*` field the optional environment variable, and
`stdinData` is `some` content exactly when stdin is not a tty. -/
structure DriverInput where
  argHtml : Option (List Char)
  argHomeUrl : Option (List Char)
  argNeedle : Option (List Char)
  envHtml : Option (List Char)
  envHomeUrl : Option (List Char)
  envNeedle : Option (List Char)
  stdinData : Option (List Char)
deriving DecidableEq

/-- Python truthiness for an optional string (`None` and `""` are falsy). -/
def truthy : Option (List Char) → Bool
  | none => false
  | some s => !s.isEmpty

/-- Driver outcome: `usage` is `parser.error` (exit status 2, no stdout,
Resolver never invoked); `ran r` means the Resolver was invoked and
finished with `r`. -/
inductive DriverOutcome where
  | usage
  | ran (r : ResolveResult)
deriving DecidableEq

/-- Process exit status of an outcome: `parser.error` exits 2; a found URL
exits 0; `sys.exit(1)` and the `except Exception` handler exit 1. -/
def exitCodeOf : DriverOutcome → Nat
  | .usage => 2
  | .ran (.found _) => 0
  | .ran .notFound => 1
  | .ran .err => 1

/-- Text printed to standard output by an outcome (`print(url)`). -/
def stdoutOf : DriverOutcome → List Char
  | .ran (.found u) => u ++ ['\n']
  | _ => []

/-- `main`: input acquisition with the flag / environment / stdin fallback
(script lines 84–101; note `args.html` and the two `or` fallbacks test
truthiness, while `"HTML" in os.environ` tests presence), then the
Resolver. -/
def mainModel (i : DriverInput) : DriverOutcome :=
  let html? : Option (List Char) :=
    if truthy i.argHtml then i.argHtml
    else
      match i.envHtml with
      | some v => some v
      | none => i.stdinData
  match html? with
  | none => .usage
  | some html =>
    match (if truthy i.argHomeUrl then i.argHomeUrl
           else if truthy i.envHomeUrl then i.envHomeUrl else none) with
    | none => .usage
    | some home =>
      match (if truthy i.argNeedle then i.argNeedle
             else if truthy i.envNeedle then i.envNeedle else none) with
      | none => .usage
      | some needle => .ran (resolve_musl_runtime_url html home needle)

/-! ### Invariants for the idempotence analysis of `normalize_text`

The two predicates below are not part of the embedded program; they are
proof devices characterizing the output of `normalize_text`. -/

/-- Every `<` in `t` is inert for the tag regex `<[^>]+>`: it is either
immediately followed by `>` (so `[^>]+` cannot match) or no `>` occurs
anywhere after it. -/
def InertLt (t : List Char) : Prop :=
  ∀ u v : List Char, t = u ++ '<' :: v → v.head? = some '>' ∨ '>' ∉ v

/-- The whitespace shape of `collapseWs` output: every whitespace character
is a plain space and no two adjacent characters are both whitespace. -/
def Collapsed (t : List Char) : Prop :=
  (∀ c ∈ t, pyIsSpace c = true → c = ' ') ∧
  List.Chain' (fun a b => ¬(pyIsSpace a = true ∧ pyIsSpace b = true)) t

/-! ## Supporting lemmas -/

theorem pyLowerChar_toNat (c : Char) :
    (pyLowerChar c).toNat =
      if 65 ≤ c.toNat ∧ c.toNat ≤ 90 then c.toNat + 32 else c.toNat := by
  unfold pyLowerChar
  split <;> rfl

/-! ## Sanity checks: concrete evaluations of the embedding, each cross-checked
against the behaviour of CPython 3.11 on the same input. -/

example : pyUnescape "&amp;lt;".data = "&lt;".data := by decide
example : pyUnescape "&lt;".data = "<".data := by decide
example : pyUnescape "&ampx".data = "&x".data := by decide
example : pyUnescape "&#65;b".data = "Ab".data := by decide
example : pyUnescape "&#x41".data = "A".data := by decide
example : pyUnescape "&bogus;x".data = "&bogus;x".data := by decide
example : subTags "in<b>ner</b>".data = "in ner ".data := by decide
example : subTags "a <> b".data = "a <> b".data := by decide
example : normalize_text "  Musl &amp; RUNTIME\n(x86_64) ".data = "musl & runtime (x86_64)".data := by
  decide
example : normalize_text (normalize_text "&amp;lt;".data) ≠ normalize_text "&amp;lt;".data := by
  decide
example : findAnchors "<a x href=\"a\" href=\"b\">t</a>".data = [("b".data, "t".data)] := by
  decide
example : findAnchors "<a href=\"\">x</a>".data = [] := by decide
example : findAnchors "<a href=\"\" x href=\"y\">z</a>".data = [("y".data, "z".data)] := by
  decide
example :
    findAnchors "<a data-href=\"/dl/r.tgz\">get</a>".data = [("/dl/r.tgz".data, "get".data)] := by
  decide
example : findAnchors "<a\nhref=\"x\">y</a>".data = [("x".data, "y".data)] := by decide
example : findAnchors "<a href=\"a\">b</a".data = [] := by decide
example :
    findAnchors "<a  href=\"q\" class=\"z\">in<b>ner</b></a>".data =
      [("q".data, "in<b>ner</b>".data)] := by decide
example : findAnchors "<A HREF=\"UP\">t</A>".data = [("UP".data, "t".data)] := by decide
example : findAnchors "<a href=\"x\"\">t</a>".data = [("x".data, "t".data)] := by decide
example : findAnchors "<a href=\"v\" >t</a>".data = [("v".data, "t".data)] := by decide
example :
    findAnchors "<a href=\"/a/\">one</a><a href=\"/b/\">two</a>".data =
      [("/a/".data, "one".data), ("/b/".data, "two".data)] := by decide
example :
    pyUrljoin "https://example.org/downloads/".data "musl/x86_64.tar.gz".data =
      some "https://example.org/downloads/musl/x86_64.tar.gz".data := by decide
example :
    pyUrljoin "https://example.org/".data "/dl/runtime-aarch64.tar.gz".data =
      some "https://example.org/dl/runtime-aarch64.tar.gz".data := by decide
example :
    pyUrljoin "https://example.org/".data "https://cdn.example.org/rt.tar.gz".data =
      some "https://cdn.example.org/rt.tar.gz".data := by decide
example :
    pyUrljoin "ftp://mirror.example.net/pub/".data "https://cdn.example.org/rt.tar.gz".data =
      some "https://cdn.example.org/rt.tar.gz".data := by decide
example : pyUrljoin "https://example.org/".data "//[runtime-x86".data = none := by decide
example :
    resolve_musl_runtime_url "<a href=\"/dl/runtime-aarch64.tar.gz\">ARM64 Runtime</a>".data
      "https://example.org/".data "aarch64".data =
    .found "https://example.org/dl/runtime-aarch64.tar.gz".data := by decide
example :
    resolve_musl_runtime_url "<a href=\"/dl/runtime-aarch64.tar.gz\">ARM64 Runtime</a>".data
      "https://example.org/".data "riscv64".data = .notFound := by decide
example : subIn "runtime".data "the runtime page".data = true := by decide
example : subIn "x86".data "aarch64".data = false := by decide
example : collapseWs " a \n\t b ".data = " a b ".data := by decide
example : pyStrip " a \n\t b ".data = "a \n\t b".data := by decide
example : pyLower "AbC-Z".data = "abc-z".data := by decide

theorem resolveAnchor_ne_notFound (home : List Char) (a : List Char × List Char) :
    resolveAnchor home a ≠ ResolveResult.notFound := by
  unfold resolveAnchor
  cases pyUrljoin home (pyUnescape a.1) <;> simp

theorem resolveLoop_append_first (home needle : List Char)
    (l1 l2 : List (List Char × List Char)) (a : List Char × List Char)
    (hskip : ∀ b ∈ l1, anchorQualifies needle b = false)
    (hq : anchorQualifies needle a = true) :
    resolveLoop home needle (l1 ++ a :: l2) = resolveAnchor home a := by
  induction l1 with
  | nil => simp [resolveLoop, hq]
  | cons b bs ih =>
    have hb : anchorQualifies needle b = false := hskip b (List.mem_cons_self b bs)
    simp only [List.cons_append, resolveLoop, hb]
    simp only [Bool.false_eq_true, if_false]
    exact ih (fun x hx => hskip x (List.mem_cons_of_mem b hx))

theorem resolveLoop_notFound_iff (home needle : List Char)
    (l : List (List Char × List Char)) :
    resolveLoop home needle l = ResolveResult.notFound ↔
      ∀ a ∈ l, anchorQualifies needle a = false := by
  induction l with
  | nil => simp [resolveLoop]
  | cons a rest ih =>
    by_cases hq : anchorQualifies needle a = true
    · simp [resolveLoop, hq, resolveAnchor_ne_notFound]
    · simp only [Bool.not_eq_true] at hq
      simp [resolveLoop, hq, ih]

/-- C1: for every HTML input whose extracted anchor list splits as
`l1 ++ a :: l2` where no anchor of `l1` qualifies (haystack contains both
`"runtime"` and the lower-cased needle) and `a` qualifies, `resolve`
returns the resolved href of `a` — the first qualifying anchor in document
order — and the result does not depend on the later anchors `l2`, i.e. the
scan stops at `a`. -/
theorem resolve_returns_first_qualifying_anchor
    (html home needle_arch : List Char)
    (l1 l2 : List (List Char × List Char)) (a : List Char × List Char)
    (hsplit : findAnchors html = l1 ++ a :: l2)
    (hskip : ∀ b ∈ l1, anchorQualifies (pyLower needle_arch) b = false)
    (hq : anchorQualifies (pyLower needle_arch) a = true) :
    resolve_musl_runtime_url html home needle_arch = resolveAnchor home a := by
  unfold resolve_musl_runtime_url
  rw [hsplit]
  exact resolveLoop_append_first home (pyLower needle_arch) l1 l2 a hskip hq

set_option maxRecDepth 10000 in
theorem resolve_returns_first_qualifying_anchor_witness :
    resolve_musl_runtime_url
      "<a href=\"/a/\">skip</a><a href=\"/dl/runtime-x86_64.tgz\">Runtime x86_64</a><a href=\"/dl2/runtime-x86_64b.tgz\">runtime x86_64 again</a>".data
      "https://example.org/".data "X86_64".data =
    resolveAnchor "https://example.org/".data
      ("/dl/runtime-x86_64.tgz".data, "Runtime x86_64".data) :=
  resolve_returns_first_qualifying_anchor _ _ _
    [("/a/".data, "skip".data)]
    [("/dl2/runtime-x86_64b.tgz".data, "runtime x86_64 again".data)]
    ("/dl/runtime-x86_64.tgz".data, "Runtime x86_64".data)
    (by decide) (by decide) (by decide)

/-- C2: `resolve` signals NOT_FOUND (the `sys.exit(1)` path, producing no
URL) if and only if no extracted anchor's haystack contains both the
substring `"runtime"` and the lower-cased needle; in particular every HTML
input with zero qualifying anchors yields NOT_FOUND. -/
theorem resolve_notFound_iff_no_qualifying_anchor
    (html home needle_arch : List Char) :
    resolve_musl_runtime_url html home needle_arch = ResolveResult.notFound ↔
      ∀ a ∈ findAnchors html, anchorQualifies (pyLower needle_arch) a = false := by
  unfold resolve_musl_runtime_url
  exact resolveLoop_notFound_iff home (pyLower needle_arch) (findAnchors html)

/-- C3: keyword matching operates on the entity-decoded, case-folded
haystack (decoded raw href) + single space + (normalized inner content):
the matching predicate is exactly the two substring tests on that haystack;
an anchor with href `RUNTIME-X86_64.tgz` matches needle `x86_64`
(case-insensitivity); inner content `musl &amp; runtime (x86_64)` matches
needle `x86_64`, its normalization containing the literal `&`. -/
theorem matching_uses_decoded_casefolded_haystack :
    (∀ needle href inner : List Char,
      anchorQualifies needle (href, inner) =
        (subIn "runtime".data (pyLower (pyUnescape href ++ ' ' :: normalize_text inner)) &&
         subIn needle (pyLower (pyUnescape href ++ ' ' :: normalize_text inner)))) ∧
    anchorQualifies "x86_64".data ("RUNTIME-X86_64.tgz".data, "download".data) = true ∧
    anchorQualifies "x86_64".data ("file.tgz".data, "musl &amp; runtime (x86_64)".data) = true ∧
    normalize_text "musl &amp; runtime (x86_64)".data = "musl & runtime (x86_64)".data :=
  ⟨fun _ _ _ => rfl, by decide, by decide, by decide⟩

/-- C7 counterexample: `resolve` does not always return a URL or signal
NOT_FOUND — on an anchor whose qualifying href is `//[runtime-x86_64`,
`urljoin` raises `ValueError("Invalid IPv6 URL")` (modelled as `.err`). -/
theorem resolve_raises_on_unparsable_href :
    resolve_musl_runtime_url "<a href=\"//[runtime-x86_64\">get</a>".data
      "https://example.org/".data "x86_64".data = ResolveResult.err := by decide

theorem resolveLoop_found_or_notFound (home needle : List Char)
    (l : List (List Char × List Char))
    (hj : ∀ a ∈ l, anchorQualifies needle a = true →
          (pyUrljoin home (pyUnescape a.1)).isSome) :
    (∃ u, resolveLoop home needle l = ResolveResult.found u) ∨
      resolveLoop home needle l = ResolveResult.notFound := by
  induction l with
  | nil => right; rfl
  | cons a rest ih =>
    by_cases hq : anchorQualifies needle a = true
    · left
      have hs := hj a (List.mem_cons_self a rest) hq
      cases hju : pyUrljoin home (pyUnescape a.1) with
      | some u => exact ⟨u, by simp [resolveLoop, hq, resolveAnchor, hju]⟩
      | none => rw [hju] at hs; simp at hs
    · simp only [Bool.not_eq_true] at hq
      simp only [resolveLoop, hq, Bool.false_eq_true, if_false]
      exact ih (fun b hb hqb => hj b (List.mem_cons_of_mem a hb) hqb)

/-- C7 amended: extraction, normalization and matching are total (they are
plain functions raising no error), and for every input on which each
qualifying anchor's decoded href joins cleanly against the base URL,
`resolve` either returns a URL or signals NOT_FOUND. -/
theorem resolve_total_when_matched_href_joins
    (html home needle_arch : List Char)
    (hj : ∀ a ∈ findAnchors html, anchorQualifies (pyLower needle_arch) a = true →
          (pyUrljoin home (pyUnescape a.1)).isSome) :
    (∃ u, resolve_musl_runtime_url html home needle_arch = ResolveResult.found u) ∨
      resolve_musl_runtime_url html home needle_arch = ResolveResult.notFound := by
  unfold resolve_musl_runtime_url
  exact resolveLoop_found_or_notFound home (pyLower needle_arch) (findAnchors html) hj

set_option maxRecDepth 10000 in
theorem resolve_total_when_matched_href_joins_witness :
    (∃ u, resolve_musl_runtime_url "<a href=\"/dl/runtime-aarch64.tar.gz\">ARM64 Runtime</a>".data
        "https://example.org/".data "aarch64".data = ResolveResult.found u) ∨
      resolve_musl_runtime_url "<a href=\"/dl/runtime-aarch64.tar.gz\">ARM64 Runtime</a>".data
        "https://example.org/".data "aarch64".data = ResolveResult.notFound :=
  resolve_total_when_matched_href_joins _ _ _ (by decide)

theorem firstSome_eq_some {f : List Char → Option (List Char × List Char × List Char)}
    {l : List (List Char)} {r : List Char × List Char × List Char}
    (h : firstSome f l = some r) : ∃ v ∈ l, f v = some r := by
  induction l with
  | nil => simp [firstSome] at h
  | cons v vs ih =>
    simp only [firstSome] at h
    cases hv : f v with
    | some r2 =>
      rw [hv] at h
      dsimp only at h
      exact ⟨v, List.mem_cons_self v vs, by rw [hv]; exact h⟩
    | none =>
      rw [hv] at h
      obtain ⟨w, hw, hfw⟩ := ih h
      exact ⟨w, List.mem_cons_of_mem v hw, hfw⟩

theorem tryHref_href_ne_nil {v h i a : List Char}
    (hm : tryHref v = some (h, i, a)) : h ≠ [] := by
  unfold tryHref at hm
  cases hd : dropLitCI "href=\"".data v with
  | none => rw [hd] at hm; simp at hm
  | some w =>
    rw [hd] at hm
    simp only at hm
    by_cases hh : w.takeWhile (fun c => c ≠ '"') = []
    · rw [if_pos hh] at hm; simp at hm
    · rw [if_neg hh] at hm
      cases hw : w.drop (w.takeWhile (fun c => c ≠ '"')).length with
      | nil => rw [hw] at hm; simp at hm
      | cons c2 rest1 =>
        rw [hw] at hm
        dsimp only at hm
        cases hg : afterGt rest1 with
        | none => rw [hg] at hm; simp at hm
        | some rest2 =>
          rw [hg] at hm
          dsimp only at hm
          cases hc : splitAtCloseA rest2 with
          | none => rw [hc] at hm; simp at hm
          | some pr =>
            obtain ⟨inner, after⟩ := pr
            rw [hc] at hm
            dsimp only at hm
            simp only [Option.some.injEq, Prod.mk.injEq] at hm
            rw [← hm.1]
            exact hh

theorem matchAnchorAt_href_ne_nil {s h i a : List Char}
    (hm : matchAnchorAt s = some (h, i, a)) : h ≠ [] := by
  unfold matchAnchorAt at hm
  cases hd : dropLitCI "<a".data s with
  | none => rw [hd] at hm; simp at hm
  | some t =>
    rw [hd] at hm
    cases t with
    | nil => simp at hm
    | cons c cs =>
      simp only at hm
      by_cases hws : pyIsSpace c = true
      · rw [if_pos hws] at hm
        obtain ⟨v, _, hv⟩ := firstSome_eq_some hm
        exact tryHref_href_ne_nil hv
      · rw [if_neg hws] at hm; simp at hm

/-- C9: every anchor record extracted from any HTML input has a nonempty
href (the `([^"]+)` group requires at least one character), so an anchor
written `href=""` never contributes an empty href and `resolve` never
returns a URL derived from an empty href. -/
theorem extracted_href_ne_nil (html : List Char) (a : List Char × List Char)
    (h : a ∈ findAnchors html) : a.1 ≠ [] := by
  unfold findAnchors at h
  generalize hn : html.length = n at h
  clear hn
  induction n generalizing html with
  | zero => simp [findAnchorsF] at h
  | succ n ih =>
    cases html with
    | nil => simp [findAnchorsF] at h
    | cons c rest =>
      simp only [findAnchorsF] at h
      cases hm : matchAnchorAt (c :: rest) with
      | some t =>
        obtain ⟨h1, i1, a1⟩ := t
        rw [hm] at h
        dsimp only at h
        rcases List.mem_cons.mp h with he | h2
        · rw [he]
          exact matchAnchorAt_href_ne_nil hm
        · exact ih a1 h2
      | none =>
        rw [hm] at h
        exact ih rest h

set_option maxRecDepth 4096 in
theorem extracted_href_ne_nil_witness :
    (("/dl/runtime.tgz".data, "get".data) : List Char × List Char).1 ≠ [] :=
  extracted_href_ne_nil "<a href=\"/dl/runtime.tgz\">get</a>".data
    ("/dl/runtime.tgz".data, "get".data) (by decide)

set_option maxRecDepth 4096 in
/-- C10: there is an HTML input whose opening anchor tag has no `href`
attribute but has a `data-href` attribute, and the extractor treats that
attribute value as the href (the greedy `[^>]*` stops before the `href="`
suffix of `data-href="`); `resolve` returns a URL resolved from it. -/
theorem data_href_suffix_attribute_extracted :
    findAnchors "<a data-href=\"/dl/runtime-x86_64.tgz\">get</a>".data =
      [("/dl/runtime-x86_64.tgz".data, "get".data)] ∧
    resolve_musl_runtime_url "<a data-href=\"/dl/runtime-x86_64.tgz\">get</a>".data
        "https://example.org/".data "x86_64".data =
      ResolveResult.found "https://example.org/dl/runtime-x86_64.tgz".data :=
  ⟨by decide, by decide⟩

/-- C8: whenever a required input is missing after the fallback chain —
HTML (flag truthy, else environment variable present, else stdin), base
URL or architecture keyword (flag truthy, else environment variable
truthy) — the driver stops with a usage error (`parser.error`, exit
status 2, hence non-zero) before invoking the Resolver, and prints nothing
to standard output. -/
theorem driver_usage_error_on_missing_input (i : DriverInput)
    (h : (truthy i.argHtml = false ∧ i.envHtml = none ∧ i.stdinData = none) ∨
         (truthy i.argHomeUrl = false ∧ truthy i.envHomeUrl = false) ∨
         (truthy i.argNeedle = false ∧ truthy i.envNeedle = false)) :
    mainModel i = DriverOutcome.usage ∧
      exitCodeOf (mainModel i) ≠ 0 ∧ stdoutOf (mainModel i) = [] := by
  have hu : mainModel i = DriverOutcome.usage := by
    unfold mainModel
    rcases h with ⟨h1, h2, h3⟩ | ⟨h1, h2⟩ | ⟨h1, h2⟩
    · rw [h1, h2, h3]
      simp
    · cases hh : (if truthy i.argHtml then i.argHtml
          else match i.envHtml with | some v => some v | none => i.stdinData) with
      | none => simp
      | some html =>
        rw [h1, h2]
        simp
    · cases hh : (if truthy i.argHtml then i.argHtml
          else match i.envHtml with | some v => some v | none => i.stdinData) with
      | none => simp
      | some html =>
        cases hh2 : (if truthy i.argHomeUrl then i.argHomeUrl
            else if truthy i.envHomeUrl then i.envHomeUrl else none) with
        | none => simp
        | some home =>
          rw [h1, h2]
          simp
  refine ⟨hu, ?_, ?_⟩ <;> rw [hu] <;> simp [exitCodeOf, stdoutOf]

theorem driver_usage_error_on_missing_input_witness :
    mainModel ⟨none, some "https://example.org/".data, some "x86_64".data,
        none, none, none, none⟩ = DriverOutcome.usage ∧
      exitCodeOf (mainModel ⟨none, some "https://example.org/".data, some "x86_64".data,
        none, none, none, none⟩) ≠ 0 ∧
      stdoutOf (mainModel ⟨none, some "https://example.org/".data, some "x86_64".data,
        none, none, none, none⟩) = [] :=
  driver_usage_error_on_missing_input _ (Or.inl ⟨by decide, rfl, rfl⟩)

theorem pyUrlparse_abs_example (d : List Char) :
    pyUrlparse "https://cdn.example.org/rt.tar.gz".data d =
      some (⟨"https".data, "cdn.example.org".data, "/rt.tar.gz".data, [], []⟩, []) := rfl

theorem urljoin_abs_any_base (b u : List Char)
    (h : pyUrljoin b "https://cdn.example.org/rt.tar.gz".data = some u) :
    u = "https://cdn.example.org/rt.tar.gz".data := by
  unfold pyUrljoin at h
  by_cases hb : b = []
  · rw [if_pos hb] at h
    exact (Option.some.inj h).symm
  · rw [if_neg hb,
      if_neg (by decide : ¬("https://cdn.example.org/rt.tar.gz".data : List Char) = [])] at h
    cases hp : pyUrlparse b [] with
    | none => rw [hp] at h; simp at h
    | some p =>
      obtain ⟨b0, bp0⟩ := p
      rw [hp] at h
      dsimp only at h
      rw [pyUrlparse_abs_example b0.scheme] at h
      dsimp only at h
      by_cases hs : ("https".data : List Char) = b0.scheme
      · rw [if_neg, if_pos] at h
        · have hun : pyUrlunparse "https".data "cdn.example.org".data "/rt.tar.gz".data [] [] []
              = "https://cdn.example.org/rt.tar.gz".data := by decide
          rw [hun] at h
          exact (Option.some.inj h).symm
        · exact ⟨by decide, by decide⟩
        · push_neg
          exact ⟨hs, by decide⟩
      · rw [if_pos (Or.inl (fun hc => hs hc))] at h
        exact (Option.some.inj h).symm

/-- C4: URL resolution follows `urllib.parse.urljoin` semantics: the
absolute href `https://cdn.example.org/rt.tar.gz` is returned unchanged
regardless of the base URL (whenever `urljoin` returns at all), and the
relative href `musl/x86_64.tar.gz` joined against base
`https://example.org/downloads/` yields
`https://example.org/downloads/musl/x86_64.tar.gz`. -/
theorem urljoin_standard_semantics :
    (∀ b u : List Char,
        pyUrljoin b "https://cdn.example.org/rt.tar.gz".data = some u →
        u = "https://cdn.example.org/rt.tar.gz".data) ∧
    pyUrljoin "https://example.org/downloads/".data "musl/x86_64.tar.gz".data =
      some "https://example.org/downloads/musl/x86_64.tar.gz".data :=
  ⟨urljoin_abs_any_base, by decide⟩

theorem urljoin_standard_semantics_witness :
    ("https://cdn.example.org/rt.tar.gz".data : List Char) =
      "https://cdn.example.org/rt.tar.gz".data :=
  urljoin_standard_semantics.1 "ftp://mirror.example.net/pub/".data
    "https://cdn.example.org/rt.tar.gz".data (by decide)


theorem char_toNat_inj {a b : Char} (h : a.toNat = b.toNat) : a = b :=
  Char.eq_of_val_eq (UInt32.ext h)

theorem pyLowerChar_idem (c : Char) : pyLowerChar (pyLowerChar c) = pyLowerChar c := by
  apply char_toNat_inj
  rw [pyLowerChar_toNat (pyLowerChar c), pyLowerChar_toNat c]
  split_ifs <;> omega

theorem pyIsSpace_pyLowerChar (c : Char) : pyIsSpace (pyLowerChar c) = pyIsSpace c := by
  rw [Bool.eq_iff_iff]
  simp only [pyIsSpace, Bool.or_eq_true, Bool.and_eq_true, decide_eq_true_eq,
    pyLowerChar_toNat]
  split_ifs <;> omega

theorem pyLowerChar_eq_iff {c d : Char}
    (h1 : ¬(65 ≤ d.toNat ∧ d.toNat ≤ 90)) (h2 : ¬(97 ≤ d.toNat ∧ d.toNat ≤ 122)) :
    pyLowerChar c = d ↔ c = d := by
  constructor
  · intro h
    apply char_toNat_inj
    have hn := congrArg Char.toNat h
    rw [pyLowerChar_toNat] at hn
    split_ifs at hn with hc
    · omega
    · exact hn
  · intro h
    subst h
    apply char_toNat_inj
    rw [pyLowerChar_toNat, if_neg h1]

theorem unescapeF_of_no_amp (n : Nat) (s : List Char) (h : '&' ∉ s) :
    unescapeF n s = s := by
  induction n generalizing s with
  | zero => rfl
  | succ n ih =>
    cases s with
    | nil => rfl
    | cons c rest =>
      have hc : ¬c = '&' := fun hc => h (hc ▸ List.mem_cons_self c rest)
      have hr : '&' ∉ rest := fun hr => h (List.mem_cons_of_mem c hr)
      simp only [unescapeF, if_neg hc]
      rw [ih rest hr]

theorem pyUnescape_of_no_amp (s : List Char) (h : '&' ∉ s) : pyUnescape s = s :=
  unescapeF_of_no_amp s.length s h

theorem subTagsF_of_no_lt (n : Nat) (s : List Char) (h : '<' ∉ s) :
    subTagsF n s = s := by
  induction n generalizing s with
  | zero => rfl
  | succ n ih =>
    cases s with
    | nil => rfl
    | cons c rest =>
      have hc : ¬c = '<' := fun hc => h (hc ▸ List.mem_cons_self c rest)
      have hr : '<' ∉ rest := fun hr => h (List.mem_cons_of_mem c hr)
      simp only [subTagsF, if_neg hc]
      rw [ih rest hr]

theorem takeWhile_ne_of_not_mem (x : Char) (l : List Char) (h : x ∉ l) :
    l.takeWhile (fun c => c ≠ x) = l := by
  induction l with
  | nil => rfl
  | cons c rest ih =>
    have hc : ¬c = x := fun hc => h (hc ▸ List.mem_cons_self c rest)
    simp only [List.takeWhile_cons]
    rw [if_pos (by simpa using hc)]
    rw [ih (fun hr => h (List.mem_cons_of_mem c hr))]

theorem splitTag_of_no_gt (rest : List Char) (h : '>' ∉ rest) :
    splitTag rest = none := by
  unfold splitTag
  rw [takeWhile_ne_of_not_mem '>' rest h]
  by_cases hr : rest = []
  · rw [if_pos (by rw [hr])]
  · rw [if_neg hr, List.drop_length]

theorem subTagsF_of_no_gt (n : Nat) (s : List Char) (h : '>' ∉ s) :
    subTagsF n s = s := by
  induction n generalizing s with
  | zero => rfl
  | succ n ih =>
    cases s with
    | nil => rfl
    | cons c rest =>
      have hr : '>' ∉ rest := fun hr => h (List.mem_cons_of_mem c hr)
      by_cases hc : c = '<'
      · simp only [subTagsF, if_pos hc, splitTag_of_no_gt rest hr]
        rw [ih rest hr]
      · simp only [subTagsF, if_neg hc]
        rw [ih rest hr]

theorem inertLt_nil : InertLt [] := by
  intro u v hv
  exact absurd hv (by simp)

theorem inertLt_singleton (c : Char) : InertLt [c] := by
  intro u v hv
  cases u with
  | nil =>
    simp only [List.nil_append, List.cons.injEq] at hv
    right
    rw [← hv.2]
    simp
  | cons a u2 => simp at hv

theorem inertLt_of_no_gt {t : List Char} (h : '>' ∉ t) : InertLt t := by
  intro u v hv
  right
  intro hg
  exact h (hv ▸ List.mem_append.mpr (Or.inr (List.mem_cons_of_mem '<' hg)))

theorem InertLt.tail {c : Char} {t : List Char} (h : InertLt (c :: t)) : InertLt t := by
  intro u v hv
  exact h (c :: u) v (by rw [hv]; rfl)

theorem inertLt_of_isInfix {m t : List Char} (hm : m <:+: t) (h : InertLt t) : InertLt m := by
  intro u v hv
  obtain ⟨p, s, hps⟩ := hm
  have hdec : t = (p ++ u) ++ '<' :: (v ++ s) := by
    rw [← hps, hv]
    simp
  rcases h (p ++ u) (v ++ s) hdec with hh | hg
  · cases v with
    | nil =>
      right
      simp
    | cons x v2 =>
      left
      simpa using hh
  · right
    intro hgv
    exact hg (List.mem_append.mpr (Or.inl hgv))

theorem inertLt_cons_of_ne {c : Char} {t : List Char} (hc : c ≠ '<')
    (h : InertLt t) : InertLt (c :: t) := by
  intro u v hv
  cases u with
  | nil =>
    simp only [List.nil_append, List.cons.injEq] at hv
    exact absurd hv.1 hc
  | cons a u2 =>
    simp only [List.cons_append, List.cons.injEq] at hv
    exact h u2 v hv.2

theorem inertLt_cons_lt_head_gt {t : List Char} (hh : t.head? = some '>')
    (h : InertLt t) : InertLt ('<' :: t) := by
  intro u v hv
  cases u with
  | nil =>
    simp only [List.nil_append, List.cons.injEq] at hv
    left
    rw [← hv.2]
    exact hh
  | cons a u2 =>
    simp only [List.cons_append, List.cons.injEq] at hv
    exact h u2 v hv.2

theorem inertLt_cons_lt_no_gt {t : List Char} (hg : '>' ∉ t) : InertLt ('<' :: t) := by
  intro u v hv
  cases u with
  | nil =>
    simp only [List.nil_append, List.cons.injEq] at hv
    right
    intro hmem
    exact hg (hv.2 ▸ hmem)
  | cons a u2 =>
    simp only [List.cons_append, List.cons.injEq] at hv
    right
    intro hmem
    exact hg (hv.2 ▸ List.mem_append.mpr (Or.inr (List.mem_cons_of_mem '<' hmem)))

theorem splitTag_suffix {rest r : List Char} (hsp : splitTag rest = some r) :
    r <:+ rest := by
  unfold splitTag at hsp
  simp only at hsp
  split_ifs at hsp
  cases hd : rest.drop (rest.takeWhile (fun c => c ≠ '>')).length with
  | nil => rw [hd] at hsp; exact absurd hsp (by simp)
  | cons x r2 =>
    rw [hd] at hsp
    simp only [Option.some.injEq] at hsp
    subst hsp
    exact (List.suffix_cons x r2).trans (hd ▸ List.drop_suffix _ rest)

theorem mem_subTagsF {c : Char} (n : Nat) (s : List Char)
    (h : c ∈ subTagsF n s) : c ∈ s ∨ c = ' ' := by
  induction n generalizing s with
  | zero => exact Or.inl h
  | succ n ih =>
    cases s with
    | nil => simp [subTagsF] at h
    | cons a rest =>
      by_cases ha : a = '<'
      · rw [subTagsF, if_pos ha] at h
        cases hsp : splitTag rest with
        | some r =>
          rw [hsp] at h
          rcases List.mem_cons.mp h with hc | hc
          · exact Or.inr hc
          · rcases ih r hc with hm | hm
            · exact Or.inl (List.mem_cons_of_mem a ((splitTag_suffix hsp).subset hm))
            · exact Or.inr hm
        | none =>
          rw [hsp] at h
          rcases List.mem_cons.mp h with hc | hc
          · exact Or.inl (hc ▸ List.mem_cons_self a rest)
          · rcases ih rest hc with hm | hm
            · exact Or.inl (List.mem_cons_of_mem a hm)
            · exact Or.inr hm
      · rw [subTagsF, if_neg ha] at h
        rcases List.mem_cons.mp h with hc | hc
        · exact Or.inl (hc ▸ List.mem_cons_self a rest)
        · rcases ih rest hc with hm | hm
          · exact Or.inl (List.mem_cons_of_mem a hm)
          · exact Or.inr hm

theorem mem_collapseWs {c : Char} (s : List Char)
    (h : c ∈ collapseWs s) : c ∈ s ∨ c = ' ' := by
  induction s using collapseWs.induct with
  | case1 => simp [collapseWs] at h
  | case2 a ha =>
    rw [collapseWs, if_pos ha] at h
    exact Or.inr (List.mem_singleton.mp h)
  | case3 a ha =>
    rw [collapseWs, if_neg ha] at h
    exact Or.inl h
  | case4 c₁ c₂ r hw ih =>
    rw [collapseWs, if_pos hw] at h
    rcases ih h with hm | hm
    · exact Or.inl (List.mem_cons_of_mem c₁ hm)
    · exact Or.inr hm
  | case5 c₁ c₂ r hw ih =>
    rw [collapseWs, if_neg hw] at h
    rcases List.mem_cons.mp h with hc | hc
    · by_cases h1 : pyIsSpace c₁ = true
      · rw [if_pos h1] at hc
        exact Or.inr hc
      · rw [if_neg h1] at hc
        exact Or.inl (hc ▸ List.mem_cons_self c₁ (c₂ :: r))
    · rcases ih hc with hm | hm
      · exact Or.inl (List.mem_cons_of_mem c₁ hm)
      · exact Or.inr hm

theorem splitTag_none_cases {rest : List Char} (hsp : splitTag rest = none) :
    rest.head? = some '>' ∨ '>' ∉ rest := by
  unfold splitTag at hsp
  simp only at hsp
  split_ifs at hsp with h1
  · cases rest with
    | nil => right; simp
    | cons x r2 =>
      rw [List.takeWhile_cons] at h1
      by_cases hx : x = '>'
      · left; rw [hx]; rfl
      · rw [if_pos (by simpa using hx)] at h1
        simp at h1
  · cases hd : rest.drop (rest.takeWhile (fun c => c ≠ '>')).length with
    | cons x r2 => rw [hd] at hsp; simp at hsp
    | nil =>
      have hlen : rest.length ≤ (rest.takeWhile (fun c => c ≠ '>')).length := by
        have hl := congrArg List.length hd
        simp only [List.length_drop, List.length_nil] at hl
        omega
      have heq : rest.takeWhile (fun c => c ≠ '>') = rest :=
        (List.takeWhile_prefix _).eq_of_length
          (le_antisymm (List.takeWhile_prefix _).length_le hlen)
      right
      intro hg
      have hmem := List.mem_takeWhile_imp (heq ▸ hg)
      simp at hmem

theorem inert_subTagsF (n : Nat) (s : List Char) (hn : s.length ≤ n) :
    InertLt (subTagsF n s) := by
  induction n generalizing s with
  | zero =>
    have hs : s = [] := List.length_eq_zero.mp (Nat.le_zero.mp hn)
    rw [hs]
    exact inertLt_nil
  | succ n ih =>
    cases s with
    | nil => exact inertLt_nil
    | cons c rest =>
      have hrest : rest.length ≤ n := by
        simp only [List.length_cons] at hn
        omega
      by_cases hc : c = '<'
      · subst hc
        rw [subTagsF, if_pos rfl]
        cases hsp : splitTag rest with
        | some r =>
          have hr : r.length ≤ n := le_trans (splitTag_suffix hsp).length_le hrest
          exact inertLt_cons_of_ne (by decide) (ih r hr)
        | none =>
          dsimp only
          rcases splitTag_none_cases hsp with hh | hg
          · apply inertLt_cons_lt_head_gt _ (ih rest hrest)
            cases rest with
            | nil => simp at hh
            | cons x r2 =>
              have hx : x = '>' := by simpa using hh
              subst hx
              cases n with
              | zero => simp at hrest
              | succ m =>
                rw [subTagsF, if_neg (by decide)]
                rfl
          · rw [subTagsF_of_no_gt n rest hg]
            exact inertLt_cons_lt_no_gt hg
      · rw [subTagsF, if_neg hc]
        exact inertLt_cons_of_ne hc (ih rest hrest)

theorem subTagsF_of_inert (n : Nat) (t : List Char) (h : InertLt t) :
    subTagsF n t = t := by
  induction n generalizing t with
  | zero => rfl
  | succ n ih =>
    cases t with
    | nil => rfl
    | cons c rest =>
      by_cases hc : c = '<'
      · subst hc
        rcases h [] rest rfl with hh | hg
        · have hsp : splitTag rest = none := by
            cases rest with
            | nil => rfl
            | cons x r2 =>
              have hx : x = '>' := by simpa using hh
              subst hx
              rfl
          rw [subTagsF, if_pos rfl, hsp]
          dsimp only
          rw [ih rest h.tail]
        · have hsp := splitTag_of_no_gt rest hg
          rw [subTagsF, if_pos rfl, hsp]
          dsimp only
          rw [subTagsF_of_no_gt n rest hg]
      · rw [subTagsF, if_neg hc]
        rw [ih rest h.tail]

theorem collapseWs_head_of_not_ws {c : Char} (r : List Char) (h : pyIsSpace c = false) :
    (collapseWs (c :: r)).head? = some c := by
  cases r with
  | nil =>
    rw [collapseWs, if_neg (by simp [h])]
    rfl
  | cons c₂ r2 =>
    rw [collapseWs, if_neg (by simp [h]), if_neg (by simp [h])]
    rfl

theorem collapsed_collapseWs (s : List Char) : Collapsed (collapseWs s) := by
  induction s using collapseWs.induct with
  | case1 => exact ⟨by simp [collapseWs], by simp [collapseWs]⟩
  | case2 c hc =>
    rw [collapseWs, if_pos hc]
    refine ⟨?_, List.chain'_singleton ' '⟩
    intro x hx _
    exact List.mem_singleton.mp hx
  | case3 c hc =>
    rw [collapseWs, if_neg hc]
    refine ⟨?_, List.chain'_singleton c⟩
    intro x hx hws
    rw [List.mem_singleton] at hx
    subst hx
    exact absurd hws (by simp_all)
  | case4 c₁ c₂ r hw ih =>
    rw [collapseWs, if_pos hw]
    exact ih
  | case5 c₁ c₂ r hw ih =>
    rw [collapseWs, if_neg hw]
    obtain ⟨ihm, ihc⟩ := ih
    simp only [Bool.and_eq_true, not_and] at hw
    constructor
    · intro x hx hws
      rcases List.mem_cons.mp hx with hx | hx
      · by_cases h1 : pyIsSpace c₁ = true
        · rw [hx, if_pos h1]
        · rw [hx, if_neg h1] at hws
          exact absurd hws (by simp [h1])
      · exact ihm x hx hws
    · rw [List.chain'_cons']
      refine ⟨?_, ihc⟩
      intro b hb
      by_cases h1 : pyIsSpace c₁ = true
      · have h2 : pyIsSpace c₂ = false := by
          rcases Bool.not_eq_true (pyIsSpace c₂) ▸ hw h1 with h
          exact h
        rw [collapseWs_head_of_not_ws r h2] at hb
        simp only [Option.mem_def, Option.some.injEq] at hb
        subst hb
        intro hcon
        rw [h2] at hcon
        exact absurd hcon.2 (by simp)
      · rw [if_neg h1]
        intro hcon
        exact h1 hcon.1

theorem collapseWs_of_collapsed (t : List Char) (h : Collapsed t) : collapseWs t = t := by
  induction t using collapseWs.induct with
  | case1 => rfl
  | case2 c hc =>
    rw [collapseWs, if_pos hc]
    rw [h.1 c (List.mem_singleton.mpr rfl) hc]
  | case3 c hc => rw [collapseWs, if_neg hc]
  | case4 c₁ c₂ r hw ih =>
    exfalso
    have hch := (List.chain'_cons.mp h.2).1
    simp only [Bool.and_eq_true] at hw
    exact hch ⟨hw.1, hw.2⟩
  | case5 c₁ c₂ r hw ih =>
    rw [collapseWs, if_neg hw]
    have htail : Collapsed (c₂ :: r) :=
      ⟨fun x hx => h.1 x (List.mem_cons_of_mem c₁ hx), (List.chain'_cons.mp h.2).2⟩
    rw [ih htail]
    by_cases h1 : pyIsSpace c₁ = true
    · rw [if_pos h1, h.1 c₁ (List.mem_cons_self _ _) h1]
    · rw [if_neg h1]

theorem collapsed_of_isInfix {m t : List Char} (hm : m <:+: t) (h : Collapsed t) :
    Collapsed m := by
  refine ⟨fun c hc => h.1 c (hm.sublist.subset hc), ?_⟩
  obtain ⟨p, s, hps⟩ := hm
  have hch := h.2
  rw [← hps] at hch
  exact (List.Chain'.left_of_append hch).right_of_append

theorem inert_collapseWs {t : List Char} (h : InertLt t) : InertLt (collapseWs t) := by
  induction t using collapseWs.induct with
  | case1 => exact inertLt_nil
  | case2 c hc =>
    rw [collapseWs, if_pos hc]
    exact inertLt_singleton ' '
  | case3 c hc =>
    rw [collapseWs, if_neg hc]
    exact inertLt_singleton c
  | case4 c₁ c₂ r hw ih =>
    rw [collapseWs, if_pos hw]
    exact ih h.tail
  | case5 c₁ c₂ r hw ih =>
    rw [collapseWs, if_neg hw]
    have hinert := ih h.tail
    by_cases h1 : pyIsSpace c₁ = true
    · rw [if_pos h1]
      exact inertLt_cons_of_ne (by decide) hinert
    · rw [if_neg h1]
      by_cases hlt : c₁ = '<'
      · subst hlt
        rcases h [] (c₂ :: r) rfl with hh | hg
        · have hc2 : c₂ = '>' := by simpa using hh
          apply inertLt_cons_lt_head_gt _ hinert
          rw [collapseWs_head_of_not_ws r (by rw [hc2]; rfl), hc2]
        · apply inertLt_cons_lt_no_gt
          intro hmem
          rcases mem_collapseWs (c₂ :: r) hmem with hm | hm
          · exact hg hm
          · exact absurd hm (by decide)
      · exact inertLt_cons_of_ne hlt hinert

theorem head_dropWhile_not {p : Char → Bool} {l : List Char} {c : Char}
    (h : (l.dropWhile p).head? = some c) : p c = false := by
  induction l with
  | nil => simp at h
  | cons a r ih =>
    rw [List.dropWhile_cons] at h
    by_cases hp : p a = true
    · rw [if_pos hp] at h
      exact ih h
    · rw [if_neg hp] at h
      simp only [List.head?_cons, Option.some.injEq] at h
      subst h
      simpa using hp

theorem dropWhile_eq_self_of_head {p : Char → Bool} {l : List Char}
    (h : ∀ c, l.head? = some c → p c = false) : l.dropWhile p = l := by
  cases l with
  | nil => rfl
  | cons a r =>
    rw [List.dropWhile_cons, if_neg]
    rw [h a rfl]
    simp

theorem prefix_head_eq {l₁ l₂ : List Char} {c : Char} (h : l₁ <+: l₂)
    (hc : l₁.head? = some c) : l₂.head? = some c := by
  obtain ⟨s, hs⟩ := h
  cases l₁ with
  | nil => simp at hc
  | cons a r =>
    rw [← hs]
    simpa using hc

theorem pyStrip_isInfix (t : List Char) : pyStrip t <:+: t := by
  have h2 : pyStrip t <+: t.dropWhile pyIsSpace := by
    rw [← List.reverse_suffix]
    unfold pyStrip
    rw [List.reverse_reverse]
    exact List.dropWhile_suffix _
  exact h2.isInfix.trans (List.dropWhile_suffix _).isInfix

theorem pyStrip_head_not_ws {t : List Char} {c : Char}
    (h : (pyStrip t).head? = some c) : pyIsSpace c = false := by
  have hp : pyStrip t <+: t.dropWhile pyIsSpace := by
    rw [← List.reverse_suffix]
    unfold pyStrip
    rw [List.reverse_reverse]
    exact List.dropWhile_suffix _
  exact head_dropWhile_not (prefix_head_eq hp h)

theorem pyStrip_getLast_not_ws {t : List Char} {c : Char}
    (h : (pyStrip t).getLast? = some c) : pyIsSpace c = false := by
  unfold pyStrip at h
  rw [List.getLast?_reverse] at h
  exact head_dropWhile_not h

theorem pyStrip_eq_self {t : List Char}
    (hh : ∀ c, t.head? = some c → pyIsSpace c = false)
    (hl : ∀ c, t.getLast? = some c → pyIsSpace c = false) : pyStrip t = t := by
  unfold pyStrip
  rw [dropWhile_eq_self_of_head hh]
  rw [dropWhile_eq_self_of_head (fun c hc => hl c (List.head?_reverse t ▸ hc))]
  exact List.reverse_reverse t

theorem pyLower_idem (t : List Char) : pyLower (pyLower t) = pyLower t := by
  unfold pyLower
  rw [List.map_map]
  exact List.map_congr_left (fun c _ => pyLowerChar_idem c)

theorem not_mem_pyLower {d : Char} {t : List Char}
    (h1 : ¬(65 ≤ d.toNat ∧ d.toNat ≤ 90)) (h2 : ¬(97 ≤ d.toNat ∧ d.toNat ≤ 122))
    (h : d ∉ t) : d ∉ pyLower t := by
  intro hm
  rcases List.mem_map.mp hm with ⟨c, hc, hcd⟩
  rw [pyLowerChar_eq_iff h1 h2] at hcd
  exact h (hcd ▸ hc)

theorem inert_pyLower {t : List Char} (h : InertLt t) : InertLt (pyLower t) := by
  intro u v hv
  unfold pyLower at hv
  rcases List.map_eq_append_iff.mp hv with ⟨l₁, l₂, hl, hm1, hm2⟩
  rcases List.map_eq_cons_iff.mp hm2 with ⟨a, l₃, hl2, ha, hm3⟩
  have ha2 : a = '<' := (pyLowerChar_eq_iff (by decide) (by decide)).mp ha
  subst ha2
  rcases h l₁ l₃ (by rw [hl, hl2]) with hh | hg
  · left
    rw [← hm3, List.head?_map]
    cases l₃ with
    | nil => simp at hh
    | cons x r =>
      have hx : x = '>' := by simpa using hh
      subst hx
      rw [List.head?_cons, Option.map_some']
      rw [show pyLowerChar '>' = '>' from by decide]
  · right
    intro hmem
    rw [← hm3] at hmem
    rcases List.mem_map.mp hmem with ⟨c, hc, hcd⟩
    have hc2 : c = '>' := (pyLowerChar_eq_iff (by decide) (by decide)).mp hcd
    exact hg (hc2 ▸ hc)

theorem collapsed_pyLower {t : List Char} (h : Collapsed t) : Collapsed (pyLower t) := by
  constructor
  · intro c hc hws
    rcases List.mem_map.mp hc with ⟨c₀, hc₀, hcd⟩
    subst hcd
    rw [pyIsSpace_pyLowerChar] at hws
    rw [h.1 c₀ hc₀ hws]
    decide
  · unfold pyLower
    rw [List.chain'_map]
    apply List.Chain'.imp _ h.2
    intro a b hab
    rw [pyIsSpace_pyLowerChar, pyIsSpace_pyLowerChar]
    exact hab

/-- C5 amended: the normalizer is idempotent on every string containing no
`&` character (entity decoding is the sole source of non-idempotence):
for all such `s`, `normalize(normalize(s)) = normalize(s)`. -/
theorem normalize_text_idem_of_no_amp (s : List Char) (hamp : '&' ∉ s) :
    normalize_text (normalize_text s) = normalize_text s := by
  have hampt0 : '&' ∉ subTags s := by
    intro hm
    rcases mem_subTagsF s.length s hm with h | h
    · exact hamp h
    · exact absurd h (by decide)
  have hu0 : pyUnescape (subTags s) = subTags s :=
    pyUnescape_of_no_amp (subTags s) hampt0
  have hns : normalize_text s = pyLower (pyStrip (collapseWs (subTags s))) := by
    unfold normalize_text
    rw [hu0]
  have hinert0 : InertLt (subTags s) := inert_subTagsF s.length s (le_refl _)
  have hinert1 : InertLt (collapseWs (subTags s)) := inert_collapseWs hinert0
  have hinert2 : InertLt (pyStrip (collapseWs (subTags s))) :=
    inertLt_of_isInfix (pyStrip_isInfix _) hinert1
  have hinertOut : InertLt (normalize_text s) := by
    rw [hns]
    exact inert_pyLower hinert2
  have hcol1 : Collapsed (collapseWs (subTags s)) := collapsed_collapseWs _
  have hcol2 : Collapsed (pyStrip (collapseWs (subTags s))) :=
    collapsed_of_isInfix (pyStrip_isInfix _) hcol1
  have hcolOut : Collapsed (normalize_text s) := by
    rw [hns]
    exact collapsed_pyLower hcol2
  have hampOut : '&' ∉ normalize_text s := by
    rw [hns]
    apply not_mem_pyLower (by decide) (by decide)
    intro hm
    have h1 : '&' ∈ collapseWs (subTags s) := (pyStrip_isInfix _).sublist.subset hm
    rcases mem_collapseWs _ h1 with h | h
    · exact hampt0 h
    · exact absurd h (by decide)
  have hheadOut : ∀ c, (normalize_text s).head? = some c → pyIsSpace c = false := by
    intro c hc
    rw [hns] at hc
    unfold pyLower at hc
    rw [List.head?_map] at hc
    cases hh : (pyStrip (collapseWs (subTags s))).head? with
    | none => rw [hh] at hc; simp at hc
    | some c₀ =>
      rw [hh, Option.map_some'] at hc
      rw [← Option.some.inj hc, pyIsSpace_pyLowerChar]
      exact pyStrip_head_not_ws hh
  have hlastOut : ∀ c, (normalize_text s).getLast? = some c → pyIsSpace c = false := by
    intro c hc
    rw [hns] at hc
    unfold pyLower at hc
    rw [List.getLast?_map] at hc
    cases hh : (pyStrip (collapseWs (subTags s))).getLast? with
    | none => rw [hh] at hc; simp at hc
    | some c₀ =>
      rw [hh, Option.map_some'] at hc
      rw [← Option.some.inj hc, pyIsSpace_pyLowerChar]
      exact pyStrip_getLast_not_ws hh
  set out := normalize_text s with hout
  unfold normalize_text
  rw [show subTags out = out from subTagsF_of_inert out.length out hinertOut,
    pyUnescape_of_no_amp _ hampOut,
    collapseWs_of_collapsed _ hcolOut, pyStrip_eq_self hheadOut hlastOut,
    hns, pyLower_idem]

/-- C5 counterexample: the normalizer is not idempotent.  For the input
`&amp;lt;`, one normalization yields `&lt;` and a second normalization
decodes that to `<`. -/
theorem normalize_text_not_idempotent :
    normalize_text (normalize_text "&amp;lt;".data) ≠ normalize_text "&amp;lt;".data := by
  decide

/-- C5 amended: the normalizer is idempotent on every string containing no
`&` character (entity decoding is the sole source of non-idempotence):
for all such `s`, `normalize(normalize(s)) = normalize(s)`. -/
theorem normalize_text_idem_of_no_amp_witness :
    normalize_text (normalize_text "  Musl RUNTIME (x86_64) ".data) =
      normalize_text "  Musl RUNTIME (x86_64) ".data :=
  normalize_text_idem_of_no_amp "  Musl RUNTIME (x86_64) ".data (by decide)
